import Mathlib

/-!
Verification of the bank-notification mail poller (mail.py).

The Python source is modelled as a shallow embedding.  Python strings are
lists of Lean characters, bytes are natural numbers, fallible code returns
Except, and the mutable state of the polling loop is passed explicitly.
Library calls made by the source (re.search on the fixed pattern,
base64.urlsafe_b64decode, bytes.decode with ignored errors,
BeautifulSoup.get_text, str.strip) are modelled by executable Lean
functions that follow the documented CPython / library semantics.
-/

namespace Mail

/-- Python str content as a list of Lean characters. -/
abbrev Str := List Char

/-- ASCII whitespace recognised by Python str.strip. -/
def isPySpace (c : Char) : Bool :=
  c = ' ' || c = '\t' || c = '\n' || c = '\r' || c = '\x0b' || c = '\x0c'

/-- Model of Python str.strip: drop leading and trailing whitespace. -/
def pyStrip (s : Str) : Str :=
  ((s.dropWhile isPySpace).reverse.dropWhile isPySpace).reverse

/-- Match a literal at the head of the input, returning the remainder on success. -/
def dropLit : Str → Str → Option Str
  | [], s => some s
  | _ :: _, [] => none
  | p :: ps, c :: cs => if c = p then dropLit ps cs else none

/-- Maximal run of decimal digits at the head of the input, paired with
the remainder of the input. -/
def digitRun : Str → Str × Str
  | [] => ([], [])
  | c :: cs =>
    if c.isDigit then
      let r := digitRun cs
      (c :: r.1, r.2)
    else ([], c :: cs)

/-! ### The transaction pattern

mail.py applies, with re.DOTALL, the single regular expression

  Rs\.(\d+\.\d 2 ) is successfully credited.*?reference number is (\d+)

via re.search.  The functions below implement exactly this pattern with
Python's matching discipline: leftmost start position first, the greedy
one-or-more-digits group tried longest-first with backtracking, the lazy
dot-star tried shortest-first, and with DOTALL the dot matching every
character including newlines. -/

/-- The fixed currency marker literal of the pattern. -/
def rsLit : Str := "Rs.".data

/-- The fixed literal that follows the amount group in the pattern. -/
def creditedLit : Str := " is successfully credited".data

/-- The fixed literal that precedes the reference group in the pattern. -/
def refLit : Str := "reference number is ".data

/-- One backtracking branch for the amount: the first group takes the digits
d, then the pattern requires a dot, exactly two digits, and the credited
literal.  Returns the text of group one and the remainder after the literal. -/
def tryAmountAt (d : Str) (rest : Str) : Option (Str × Str) :=
  match rest with
  | '.' :: a :: b :: rest2 =>
    if a.isDigit && b.isDigit then
      match dropLit creditedLit rest2 with
      | some rest3 => some (d ++ '.' :: a :: b :: [], rest3)
      | none => none
    else none
  | _ => none

/-- Greedy backtracking over how many digits of the maximal run the
one-or-more-digits group consumes: the longest split is tried first, as a
backtracking engine does, going down to a single digit. -/
def bkAmount (run rest : Str) : Nat → Option (Str × Str)
  | 0 => none
  | k + 1 =>
    match tryAmountAt (run.take (k + 1)) (run.drop (k + 1) ++ rest) with
    | some r => some r
    | none => bkAmount run rest k

/-- Matching of the amount part of the pattern right after the currency
marker.  The digit group can only take digits, so the candidate splits are
the nonempty prefixes of the maximal digit run. -/
def matchAfterRs (s : Str) : Option (Str × Str) :=
  let p := digitRun s
  bkAmount p.1 p.2 p.1.length

/-- The lazy dot-star followed by the reference literal and the greedy final
digit group: scan forward one character at a time (shortest extension first;
with DOTALL every character may be consumed) for a position where the
reference literal matches and is followed by at least one digit; the final
group then greedily takes the maximal digit run there. -/
def findRef : Str → Option Str
  | [] => none
  | c :: cs =>
    match dropLit refLit (c :: cs) with
    | some rest =>
      let r := digitRun rest
      if r.1.isEmpty then findRef cs else some r.1
    | none => findRef cs

/-- re.search of the full pattern: start positions are tried left to right;
at a given start the currency marker, the amount and the lazy reference scan
must all succeed.  When the reference scan fails after a successful amount,
a backtracking engine retries the shorter digit splits of the amount group,
but each of those fails at once (the character after a shorter split of the
maximal digit run is a digit, not the required dot), so moving on to the
next start position is faithful.  Returns the two capture groups. -/
def searchFrom : Str → Option (Str × Str)
  | [] => none
  | c :: cs =>
    match dropLit rsLit (c :: cs) with
    | some rest =>
      match matchAfterRs rest with
      | some g =>
        match findRef g.2 with
        | some g2 => some (g.1, g2)
        | none => searchFrom cs
      | none => searchFrom cs
    | none => searchFrom cs

/-- Numeric value of a string of decimal digits. -/
def digitsVal (ds : Str) : Nat := ds.foldl (fun n c => 10 * n + (c.toNat - '0'.toNat)) 0

/-- Model of Python float() applied to the first capture group, whose shape
is always digits, a dot, and two digits.  The value is the exact decimal
rational; rounding to IEEE double is abstracted away, which is sound for
every comparison made in this development because both sides round alike. -/
def pyFloat (g : Str) : ℚ :=
  let ip := g.takeWhile (fun c => c ≠ '.')
  let fp := (g.dropWhile (fun c => c ≠ '.')).drop 1
  mkRat (digitsVal ip * 10 ^ fp.length + digitsVal fp) (10 ^ fp.length)

/-- The transaction record built by extract_transaction_info: the amount
keyed "amount" and the reference string keyed "utr" in the source. -/
structure Txn where
  amount : ℚ
  utr : Str
deriving DecidableEq

/-- Model of extract_transaction_info from mail.py: run the pattern search
over the full text; on a match build the record from float(group 1) and
group 2 kept as a string; otherwise None.  The try/except of the source can
only catch a failure of float(), which cannot fail on a string of shape
digits-dot-digit-digit, so the except branch is unreachable and the only
None outcomes are pattern-match failures. -/
def extract_transaction_info (text : Str) : Option Txn :=
  match searchFrom text with
  | some g => some ⟨pyFloat g.1, g.2⟩
  | none => none

/-- Concrete evaluation of the float model on the running example amount. -/
lemma pyFloat_1234_56 : pyFloat "1234.56".data = 1234.56 := by
  have h : pyFloat "1234.56".data = mkRat 123456 100 := rfl
  rw [h, Rat.mkRat_eq_div]
  norm_num

/-- Concrete evaluation of the float model on a second amount. -/
lemma pyFloat_1_23 : pyFloat "1.23".data = 1.23 := by
  have h : pyFloat "1.23".data = mkRat 123 100 := rfl
  rw [h, Rat.mkRat_eq_div]
  norm_num

example : extract_transaction_info "Rs.1234.56 is successfully credited to your account ... the reference number is 123456789012".data
    = some ⟨(1234.56 : ℚ), "123456789012".data⟩ := by
  rw [← pyFloat_1234_56]; rfl

example : extract_transaction_info "Rs.1,234.56 is successfully credited to your account ... reference number is 987654321".data
    = none := by decide

example : extract_transaction_info "Rs.1234.56 is successfully credited\n\nblah\nreference number is 99".data
    = some ⟨(1234.56 : ℚ), "99".data⟩ := by
  rw [← pyFloat_1234_56]; rfl

example : extract_transaction_info "Rs.1234.56 is successfully credited reference number is 777 and reference number is 99".data
    = some ⟨(1234.56 : ℚ), "777".data⟩ := by
  rw [← pyFloat_1234_56]; rfl

example : extract_transaction_info "Rs.12.34.56 is successfully credited reference number is 5".data
    = none := by decide

example : extract_transaction_info "xxRs.Rs.1.23 is successfully credited ok reference number is 0042zz".data
    = some ⟨(1.23 : ℚ), "0042".data⟩ := by
  rw [← pyFloat_1_23]; rfl

example : extract_transaction_info "Rs.1.23 is successfully credited reference number is x reference number is 7".data
    = some ⟨(1.23 : ℚ), "7".data⟩ := by
  rw [← pyFloat_1_23]; rfl

example : extract_transaction_info "Your OTP is 482913".data = none := by decide

/-! ### The body decoder

get_email_body decodes each candidate body-data field with
base64.urlsafe_b64decode and bytes.decode with errors ignored, and strips
HTML through BeautifulSoup.  urlsafe_b64decode can raise binascii.Error on
malformed padding, and get_email_body does not catch it, so the decoder is
modelled in Except. -/

/-- The two errors binascii.a2b_base64 can raise in non-strict mode: a
number of data characters that is one more than a multiple of four, and
otherwise incorrect padding. -/
inductive B64Error
  | invalidLength
  | incorrectPadding
deriving DecidableEq

/-- Value of one base64 alphabet character.  urlsafe_b64decode first
translates minus to plus and underscore to slash and then decodes with the
standard alphabet; that translation is inlined here, every other character
is discarded by the non-strict decoder. -/
def b64Val (c : Char) : Option Nat :=
  if 'A' ≤ c && c ≤ 'Z' then some (c.toNat - 'A'.toNat)
  else if 'a' ≤ c && c ≤ 'z' then some (c.toNat - 'a'.toNat + 26)
  else if '0' ≤ c && c ≤ '9' then some (c.toNat - '0'.toNat + 52)
  else if c = '+' || c = '-' then some 62
  else if c = '/' || c = '_' then some 63
  else none

/-- CPython binascii.a2b_base64 in non-strict mode, one character at a
time.  The arguments mirror the C variables: position inside the current
quadruple, the carried bits of the previous character, the count of pad
characters of the current pad run, and the bytes produced so far in
reverse.  A pad sequence that completes a quadruple ends the decode
successfully and ignores the rest of the input; at the end of the input a
quadruple position of one is the invalid-length error and positions two
and three are the incorrect-padding error, exactly as in the C source. -/
def a2b : Str → Nat → Nat → Nat → List Nat → Except B64Error (List Nat)
  | [], 0, _, _, acc => .ok acc.reverse
  | [], 1, _, _, _ => .error .invalidLength
  | [], _, _, _, _ => .error .incorrectPadding
  | c :: cs, qp, lc, pads, acc =>
    if c = '=' then
      if 2 ≤ qp then
        if 4 ≤ qp + (pads + 1) then .ok acc.reverse
        else a2b cs qp lc (pads + 1) acc
      else a2b cs qp lc pads acc
    else
      match b64Val c with
      | none => a2b cs qp lc pads acc
      | some v =>
        match qp with
        | 0 => a2b cs 1 v 0 acc
        | 1 => a2b cs 2 (v % 16) 0 ((lc * 4 + v / 16) :: acc)
        | 2 => a2b cs 3 (v % 4) 0 ((lc * 16 + v / 4) :: acc)
        | _ => a2b cs 0 0 0 ((lc * 64 + v) :: acc)

/-- Model of base64.urlsafe_b64decode on a Python string encoded to UTF-8
bytes.  Characters outside the alphabet are discarded by the decoder, so
treating the input as characters rather than bytes is equivalent. -/
def urlsafeB64decode (data : Str) : Except B64Error (List Nat) :=
  a2b data 0 0 0 []

/-- UTF-8 continuation byte test. -/
def isCont (b : Nat) : Bool := 0x80 ≤ b && b ≤ 0xBF

/-- Worker for the UTF-8 decoder, structurally recursive on a fuel
argument so that it reduces inside the kernel.  Every iteration consumes at
least the head byte, so a fuel equal to the length of the input never runs
out; utf8IgnoreAux_fuel below makes that exact. -/
def utf8IgnoreAux : Nat → List Nat → List Char
  | _, [] => []
  | 0, _ :: _ => []
  | f + 1, b :: bs =>
    if b < 0x80 then Char.ofNat b :: utf8IgnoreAux f bs
    else if 0xC2 ≤ b && b ≤ 0xDF then
      match bs with
      | [] => []
      | b2 :: bs2 =>
        if isCont b2 then Char.ofNat ((b - 0xC0) * 64 + (b2 - 0x80)) :: utf8IgnoreAux f bs2
        else utf8IgnoreAux f bs
    else if 0xE0 ≤ b && b ≤ 0xEF then
      match bs with
      | [] => []
      | b2 :: bs2 =>
        if (b = 0xE0 && (0xA0 ≤ b2 && b2 ≤ 0xBF)) ||
            (b = 0xED && (0x80 ≤ b2 && b2 ≤ 0x9F)) ||
            (b ≠ 0xE0 && b ≠ 0xED && isCont b2) then
          match bs2 with
          | [] => []
          | b3 :: bs3 =>
            if isCont b3 then
              Char.ofNat ((b - 0xE0) * 4096 + (b2 - 0x80) * 64 + (b3 - 0x80)) ::
                utf8IgnoreAux f bs3
            else utf8IgnoreAux f bs2
        else utf8IgnoreAux f bs
    else if 0xF0 ≤ b && b ≤ 0xF4 then
      match bs with
      | [] => []
      | b2 :: bs2 =>
        if (b = 0xF0 && (0x90 ≤ b2 && b2 ≤ 0xBF)) ||
            (b = 0xF4 && (0x80 ≤ b2 && b2 ≤ 0x8F)) ||
            (b ≠ 0xF0 && b ≠ 0xF4 && isCont b2) then
          match bs2 with
          | [] => []
          | b3 :: bs3 =>
            if isCont b3 then
              match bs3 with
              | [] => []
              | b4 :: bs4 =>
                if isCont b4 then
                  Char.ofNat ((b - 0xF0) * 262144 + (b2 - 0x80) * 4096 +
                      (b3 - 0x80) * 64 + (b4 - 0x80)) :: utf8IgnoreAux f bs4
                else utf8IgnoreAux f bs3
            else utf8IgnoreAux f bs2
        else utf8IgnoreAux f bs
    else utf8IgnoreAux f bs

/-- The fuel is irrelevant as long as it covers the length of the input, so
starting from the length of the input is a faithful rendering of the
unbounded loop of the CPython decoder. -/
lemma utf8IgnoreAux_fuel : ∀ (f g : Nat) (bs : List Nat), bs.length ≤ f → bs.length ≤ g →
    utf8IgnoreAux f bs = utf8IgnoreAux g bs := by
  intro f
  induction f with
  | zero =>
    intro g bs h1 _
    have : bs = [] := List.length_eq_zero.mp (Nat.le_zero.mp h1)
    subst this
    cases g <;> rfl
  | succ f ih =>
    intro g bs h1 h2
    match bs, g with
    | [], g => cases g <;> rfl
    | b :: bs', 0 => simp at h2
    | b :: bs', g + 1 =>
      simp only [List.length_cons, Nat.succ_le_succ_iff] at h1 h2
      simp only [utf8IgnoreAux]
      repeat' split
      all_goals first
        | rfl
        | (apply ih <;> (try simp only [List.length_cons] at *) <;> omega)
        | (simp only [List.cons.injEq]
           refine ⟨trivial, ?_⟩
           apply ih <;> (try simp only [List.length_cons] at *) <;> omega)

/-- Model of bytes.decode with errors ignored: standard UTF-8 decoding where
every maximal invalid subpart is skipped instead of raising.  Overlong,
surrogate and out-of-range encodings are invalid, as in CPython.  This
function is total: ignoring errors means no input can make it fail. -/
def utf8Ignore (bs : List Nat) : List Char := utf8IgnoreAux bs.length bs

/-- The one decode pipeline applied by get_email_body to a body-data field:
urlsafe base64 decode, which may raise, then bytes.decode with errors
ignored, which cannot. -/
def decodeData (data : Str) : Except B64Error Str :=
  (urlsafeB64decode data).map utf8Ignore

/-- Model of BeautifulSoup(content, html.parser).get_text() for the markup
this program meets: characters between an opening and the matching closing
angle bracket are tag markup and contribute nothing, everything else is
text.  The flag records whether the scanner is inside a tag. -/
def stripTags : Bool → Str → Str
  | _, [] => []
  | false, '<' :: cs => stripTags true cs
  | false, c :: cs => c :: stripTags false cs
  | true, '>' :: cs => stripTags false cs
  | true, _ :: cs => stripTags true cs

/-- Text content of an HTML string, tags stripped. -/
def getText (s : Str) : Str := stripTags false s

/-- One MIME part as get_email_body reads it: the optional mimeType key and
the optional data key inside the optional body key. -/
structure Part where
  mimeType : Option Str
  bodyData : Option Str
deriving DecidableEq

/-- A Gmail message payload: either a parts list is present, or the payload
is single-part with its own mimeType and body data. -/
structure MessagePayload where
  parts : Option (List Part)
  mimeType : Option Str
  bodyData : Option Str
deriving DecidableEq

/-- The plain-text MIME type literal. -/
def plainMime : Str := "text/plain".data

/-- The HTML MIME type literal. -/
def htmlMime : Str := "text/html".data

/-- The for loop of get_email_body over the parts list: a part without body
data — an absent field or the empty string, both falsy in Python — is
skipped; the first part with nonempty body data is decoded, and if its MIME
type is text/plain its stripped content is returned, if text/html its
stripped text content with tags removed is returned, and otherwise the loop
moves on; an exhausted loop returns the empty string.  Note the decode
happens before the MIME type is examined, so a malformed part raises even
when its type is recognised by no branch. -/
def partsLoop : List Part → Except B64Error Str
  | [] => .ok []
  | part :: rest =>
    match part.bodyData with
    | none => partsLoop rest
    | some data =>
      if data = [] then partsLoop rest
      else do
        let content ← decodeData data
        if part.mimeType = some plainMime then pure (pyStrip content)
        else if part.mimeType = some htmlMime then pure (pyStrip (getText content))
        else partsLoop rest

/-- Model of get_email_body from mail.py: with a parts list, run the parts
loop; otherwise apply the same plain or html rule to the payload's own body
data, returning the empty string when there is no data or the type is
neither. -/
def get_email_body (payload : MessagePayload) : Except B64Error Str :=
  match payload.parts with
  | some parts => partsLoop parts
  | none =>
    match payload.bodyData with
    | none => .ok []
    | some data =>
      if data = [] then .ok []
      else do
        let content ← decodeData data
        if payload.mimeType = some plainMime then pure (pyStrip content)
        else if payload.mimeType = some htmlMime then pure (pyStrip (getText content))
        else .ok []

example : decodeData "UExBSU4=".data = .ok "PLAIN".data := by rfl

example : decodeData "PGI-SFRNTDwvYj4=".data = .ok "<b>HTML</b>".data := by rfl

example : decodeData "A".data = .error B64Error.invalidLength := by rfl

example : decodeData "AB".data = .error B64Error.incorrectPadding := by rfl

example : decodeData "AB==".data = .ok ['\x00'] := by rfl

example :
    get_email_body ⟨some [⟨some htmlMime, some "PGI-SFRNTDwvYj4=".data⟩,
        ⟨some plainMime, some "UExBSU4=".data⟩], none, none⟩ = .ok "HTML".data := by rfl

/-! ### The polling loop

main holds a seen-identifier set and loops: query the provider, then for
each returned identifier skip it when seen, otherwise fetch the full
message, decode its body, attempt extraction, print a found transaction,
and add the identifier to the seen set; finally sleep, with
KeyboardInterrupt as the only caught exception.  The mutable state is
passed explicitly, together with observation traces of the fetch calls,
the printed transactions and the seen-set insertions.  Provider calls are
modelled as Except values supplied from outside; their error carries a flag
recording whether the failure is of the transient, network kind. -/

/-- The state of one run of main: the seen_message_ids set as the list of
its insertions in order, the trace of issued per-message fetch calls, the
trace of printed transaction records, the trace of seen-set insertions, and
the new_found flag of the current cycle. -/
structure CycleSt where
  seen : List String
  fetched : List String
  emitted : List Txn
  marked : List String
  newFound : Bool
deriving DecidableEq

/-- An exception escaping the per-message body of the polling loop: a
provider error from the messages().get call, or a binascii error escaping
get_email_body. -/
inductive CycleErr
  | provider (transient : Bool)
  | decode (e : B64Error)
deriving DecidableEq

/-- The body of the for loop of main for one message identifier: skip when
seen; otherwise fetch, decode, extract, print on success, and add to the
seen set.  An exception carries out the state as mutated so far. -/
def processMsg (fetch : String → Except Bool MessagePayload) (st : CycleSt) (msgId : String) :
    Except (CycleErr × CycleSt) CycleSt :=
  if msgId ∈ st.seen then .ok st
  else
    match fetch msgId with
    | .error t => .error (.provider t, { st with fetched := st.fetched ++ [msgId] })
    | .ok payload =>
      let st1 := { st with fetched := st.fetched ++ [msgId] }
      match get_email_body payload with
      | .error e => .error (.decode e, st1)
      | .ok body =>
        let st2 :=
          match extract_transaction_info body with
          | some t => { st1 with emitted := st1.emitted ++ [t], newFound := true }
          | none => st1
        .ok { st2 with seen := st2.seen ++ [msgId], marked := st2.marked ++ [msgId] }

/-- The for loop of main over the identifiers of one query result: an
exception from one message body ends the loop at once. -/
def run_cycleMsgs (fetch : String → Except Bool MessagePayload) :
    List String → CycleSt → Except (CycleErr × CycleSt) CycleSt
  | [], st => .ok st
  | m :: ms, st =>
    match processMsg fetch st m with
    | .ok st1 => run_cycleMsgs fetch ms st1
    | .error e => .error e

/-- The provider-visible behaviour of one tick of the while loop: the
result of the messages().list query, the behaviour of the messages().get
fetches, and whether the user interrupts during this tick's sleep. -/
structure Tick where
  queryRes : Except Bool (List String)
  fetch : String → Except Bool MessagePayload
  interrupted : Bool

/-- One iteration of the while loop of main: the query either raises or
yields the identifiers; new_found is reset at the start of the cycle. -/
def run_cycle (t : Tick) (st : CycleSt) : Except (CycleErr × CycleSt) CycleSt :=
  match t.queryRes with
  | .error tr => .error (.provider tr, st)
  | .ok msgs => run_cycleMsgs t.fetch msgs { st with newFound := false }

/-- How a run of main ends, when it does: a caught KeyboardInterrupt prints
the goodbye line and exits cleanly; any other exception escapes the try
block and terminates the process. -/
inductive LoopOutcome
  | cleanStop
  | crashed (e : CycleErr)
deriving DecidableEq

/-- The unbounded while loop of main observed along a finite list of tick
behaviours: none means the loop is still running after them.  The only
caught exception is KeyboardInterrupt, modelled at the sleep at the end of
a completed cycle; every provider or decode exception terminates the
process. -/
def runLoop : List Tick → CycleSt → Option LoopOutcome × CycleSt
  | [], st => (none, st)
  | t :: ts, st =>
    match run_cycle t st with
    | .error es => (some (.crashed es.1), es.2)
    | .ok st1 => if t.interrupted then (some .cleanStop, st1) else runLoop ts st1

/-- The state at the start of main: empty seen set, no observations yet. -/
def initSt : CycleSt := ⟨[], [], [], [], false⟩

/-! ### Invariants of the cycle state -/

/-- The state carried out of a step, whether it returned or raised. -/
def stOf (r : Except (CycleErr × CycleSt) CycleSt) : CycleSt :=
  match r with
  | .ok st => st
  | .error es => es.2

/-- A seen identifier is skipped with the state left untouched: no fetch, no
decode, no extraction, no emission, no insertion. -/
lemma processMsg_of_seen {f : String → Except Bool MessagePayload} {st : CycleSt} {m : String}
    (h : m ∈ st.seen) : processMsg f st m = .ok st := by
  simp [processMsg, h]

/-- One message step either leaves the seen set and the insertion trace
untouched (skip or exception), or extends both by exactly the processed
identifier, which was not seen before. -/
lemma processMsg_state (f : String → Except Bool MessagePayload) (st : CycleSt) (m : String) :
    ((stOf (processMsg f st m)).seen = st.seen ∧ (stOf (processMsg f st m)).marked = st.marked) ∨
    (m ∉ st.seen ∧ (stOf (processMsg f st m)).seen = st.seen ++ [m] ∧
      (stOf (processMsg f st m)).marked = st.marked ++ [m]) := by
  by_cases hm : m ∈ st.seen
  · left
    simp [processMsg, hm, stOf]
  · cases hf : f m with
    | error t => left; simp [processMsg, hm, hf, stOf]
    | ok p =>
      cases hb : get_email_body p with
      | error e => left; simp [processMsg, hm, hf, hb, stOf]
      | ok body =>
        right
        refine ⟨hm, ?_⟩
        cases hx : extract_transaction_info body <;>
          simp [processMsg, hm, hf, hb, hx, stOf]

/-- The invariant tying the seen set to the insertion trace: they are the
same list, and it has no duplicates. -/
def Inv (st : CycleSt) : Prop := st.seen = st.marked ∧ st.seen.Nodup

/-- One message step preserves the invariant and only grows the seen set. -/
lemma processMsg_inv {f : String → Except Bool MessagePayload} {st : CycleSt} {m : String}
    (h : Inv st) : Inv (stOf (processMsg f st m)) ∧ st.seen ⊆ (stOf (processMsg f st m)).seen := by
  rcases processMsg_state f st m with ⟨h1, h2⟩ | ⟨hm, h1, h2⟩
  · exact ⟨⟨h1.trans (h.1.trans h2.symm), h1 ▸ h.2⟩, h1 ▸ fun a ha => ha⟩
  · refine ⟨⟨?_, ?_⟩, ?_⟩
    · rw [h1, h2, h.1]
    · rw [h1]
      simp [List.nodup_append, h.2, hm]
    · rw [h1]
      exact List.subset_append_left _ _
/-- The per-cycle message loop preserves the invariant and only grows the
seen set, whether it completes or raises. -/
lemma run_cycleMsgs_inv {f : String → Except Bool MessagePayload} :
    ∀ (msgs : List String) (st : CycleSt), Inv st →
      Inv (stOf (run_cycleMsgs f msgs st)) ∧
        st.seen ⊆ (stOf (run_cycleMsgs f msgs st)).seen := by
  intro msgs
  induction msgs with
  | nil => exact fun st h => ⟨h, fun a ha => ha⟩
  | cons m ms ih =>
    intro st h
    have hp := @processMsg_inv f st m h
    simp only [run_cycleMsgs]
    cases hpm : processMsg f st m with
    | ok st1 =>
      rw [hpm] at hp
      have := ih st1 hp.1
      exact ⟨this.1, fun a ha => this.2 (hp.2 ha)⟩
    | error e =>
      rw [hpm] at hp
      exact hp

/-- One full cycle preserves the invariant and only grows the seen set. -/
lemma run_cycle_inv {t : Tick} {st : CycleSt} (h : Inv st) :
    Inv (stOf (run_cycle t st)) ∧ st.seen ⊆ (stOf (run_cycle t st)).seen := by
  unfold run_cycle
  cases t.queryRes with
  | error tr => exact ⟨h, fun a ha => ha⟩
  | ok msgs => exact run_cycleMsgs_inv msgs { st with newFound := false } h

/-- The whole loop preserves the invariant and only grows the seen set. -/
lemma runLoop_inv : ∀ (ticks : List Tick) (st : CycleSt), Inv st →
    Inv (runLoop ticks st).2 ∧ st.seen ⊆ (runLoop ticks st).2.seen := by
  intro ticks
  induction ticks with
  | nil => exact fun st h => ⟨h, fun a ha => ha⟩
  | cons t ts ih =>
    intro st h
    have hc := @run_cycle_inv t st h
    simp only [runLoop]
    cases hr : run_cycle t st with
    | error es =>
      rw [hr] at hc
      exact hc
    | ok st1 =>
      rw [hr] at hc
      by_cases hi : t.interrupted
      · simp only [hi, if_true]
        exact hc
      · simp only [hi, if_false]
        have := ih st1 hc.1
        exact ⟨this.1, fun a ha => this.2 (hc.2 ha)⟩

/-- C2: for every message identifier processed during a run, the identifier
is added to the seen set exactly once, unconditionally after processing
whether or not extraction produced a record, and once added it is never
removed.  Formally: starting from a state whose seen set equals its
duplicate-free insertion trace, the insertion trace after any run of the
loop is still duplicate-free (each identifier inserted at most once), every
seen identifier stays seen across any run (never removed), and a step on an
unseen identifier whose fetch and decode return appends the identifier to
the seen set and to the insertion trace exactly once, with no hypothesis on
the extraction outcome. -/
theorem C2_mark_seen_exactly_once :
    ∀ (ticks : List Tick) (st0 : CycleSt), st0.seen = st0.marked → st0.marked.Nodup →
      ((runLoop ticks st0).2.marked.Nodup ∧
        ∀ x, x ∈ st0.seen → x ∈ (runLoop ticks st0).2.seen) ∧
      ∀ (f : String → Except Bool MessagePayload) (st : CycleSt) (m : String)
        (p : MessagePayload) (b : Str), m ∉ st.seen → f m = .ok p → get_email_body p = .ok b →
        ∃ st', processMsg f st m = .ok st' ∧ st'.seen = st.seen ++ [m] ∧
          st'.marked = st.marked ++ [m] := by
  intro ticks st0 hsm hnd
  have hInv : Inv st0 := ⟨hsm, hsm ▸ hnd⟩
  have hL := runLoop_inv ticks st0 hInv
  refine ⟨⟨hL.1.1 ▸ hL.1.2, fun x hx => hL.2 hx⟩, ?_⟩
  intro f st m p b hm hf hb
  cases hx : extract_transaction_info b with
  | none =>
    have hs : processMsg f st m = .ok { st with fetched := st.fetched ++ [m], seen := st.seen ++ [m], marked := st.marked ++ [m] } := by
      simp [processMsg, hm, hf, hb, hx]
    exact ⟨_, hs, rfl, rfl⟩
  | some txn =>
    have hs : processMsg f st m = .ok { st with fetched := st.fetched ++ [m], emitted := st.emitted ++ [txn], newFound := true, seen := st.seen ++ [m], marked := st.marked ++ [m] } := by
      simp [processMsg, hm, hf, hb, hx]
    exact ⟨_, hs, rfl, rfl⟩

/-- Closed instance of C2 at the empty run and a concrete unseen message. -/
theorem C2_mark_seen_exactly_once_witness :
    (initSt.seen = initSt.marked ∧ initSt.marked.Nodup) ∧
    (runLoop [] initSt).2.marked.Nodup ∧
    ∃ st', processMsg (fun _ => .ok ⟨none, none, none⟩) initSt "m1" = .ok st' ∧
      st'.seen = initSt.seen ++ ["m1"] ∧ st'.marked = initSt.marked ++ ["m1"] :=
  ⟨⟨rfl, List.nodup_nil⟩,
    ((C2_mark_seen_exactly_once [] initSt rfl List.nodup_nil).1).1,
    (C2_mark_seen_exactly_once [] initSt rfl List.nodup_nil).2
      (fun _ => .ok ⟨none, none, none⟩) initSt "m1" ⟨none, none, none⟩ []
      (by decide) rfl rfl⟩

/-- The message loop of a cycle gives equal results on a result list with a
seen identifier and on the same list with that identifier dropped. -/
lemma run_cycleMsgs_filter_seen {f : String → Except Bool MessagePayload} {id : String} :
    ∀ (msgs : List String) (st : CycleSt), id ∈ st.seen →
      run_cycleMsgs f msgs st = run_cycleMsgs f (msgs.filter (fun m => m ≠ id)) st := by
  intro msgs
  induction msgs with
  | nil => intro st _; rfl
  | cons m ms ih =>
    intro st hid
    by_cases hm : m = id
    · subst hm
      rw [List.filter_cons_of_neg (by simp)]
      simp only [run_cycleMsgs, processMsg_of_seen hid]
      exact ih st hid
    · rw [List.filter_cons_of_pos (by simp [hm])]
      simp only [run_cycleMsgs]
      cases hpm : processMsg f st m with
      | ok st1 =>
        have hmono := (processMsg_state f st m).imp
          (fun h => h.1) (fun h => h.2.1)
        rw [hpm] at hmono
        have hid1 : id ∈ st1.seen := by
          rcases hmono with h | h
          · rw [show st1 = stOf (Except.ok st1) from rfl, h]
            exact hid
          · rw [show st1 = stOf (Except.ok st1) from rfl, h]
            exact List.mem_append_left _ hid
        exact ih st1 hid1
      | error e => rfl

/-- C3: a cycle is idempotent on already-seen identifiers.  A seen
identifier is skipped with no fetch, no decode, no extraction, no emission
and no state change at all, and the cycle's entire outcome equals that of
the same cycle with the identifier removed from the provider's result
list. -/
theorem C3_idempotent_on_seen :
    ∀ (fetch : String → Except Bool MessagePayload) (i : Bool) (msgs : List String)
      (st : CycleSt) (id : String), id ∈ st.seen →
      processMsg fetch st id = .ok st ∧
      run_cycle ⟨.ok msgs, fetch, i⟩ st =
        run_cycle ⟨.ok (msgs.filter (fun m => m ≠ id)), fetch, i⟩ st := by
  intro fetch i msgs st id hid
  refine ⟨processMsg_of_seen hid, ?_⟩
  simp only [run_cycle]
  exact run_cycleMsgs_filter_seen msgs { st with newFound := false } hid

/-- Closed instance of C3 at a concrete state and result list. -/
theorem C3_idempotent_on_seen_witness :
    "m1" ∈ (⟨["m1"], [], [], ["m1"], false⟩ : CycleSt).seen ∧
    processMsg (fun _ => .error true) ⟨["m1"], [], [], ["m1"], false⟩ "m1" =
      .ok ⟨["m1"], [], [], ["m1"], false⟩ ∧
    run_cycle ⟨.ok ["m1", "m2"], fun _ => .error true, false⟩ ⟨["m1"], [], [], ["m1"], false⟩ =
      run_cycle ⟨.ok (["m1", "m2"].filter (fun m => m ≠ "m1")), fun _ => .error true, false⟩
        ⟨["m1"], [], [], ["m1"], false⟩ :=
  ⟨by decide,
    (C3_idempotent_on_seen (fun _ => .error true) false ["m1", "m2"]
      ⟨["m1"], [], [], ["m1"], false⟩ "m1" (by decide)).1,
    (C3_idempotent_on_seen (fun _ => .error true) false ["m1", "m2"]
      ⟨["m1"], [], [], ["m1"], false⟩ "m1" (by decide)).2⟩

/-! ### Cycle isolation (C5) and loop error handling (C9) -/

/-- A payload whose body data is malformed base64: one data character. -/
def badPayload : MessagePayload := ⟨none, some plainMime, some "A".data⟩

/-- A provider whose every fetch returns the malformed payload. -/
def badFetch : String → Except Bool MessagePayload := fun _ => .ok badPayload

/-- C5 as stated is false: a decode failure on one message does abort the
rest of the cycle.  With two fresh messages where the first has a
malformed-base64 body, the cycle raises at the first message: the second is
never fetched, the first is not marked seen, and nothing is emitted. -/
theorem C5_counterexample :
    run_cycleMsgs badFetch ["m1", "m2"] initSt =
      .error (.decode B64Error.invalidLength, ⟨[], ["m1"], [], [], false⟩) ∧
    "m2" ∉ (stOf (run_cycleMsgs badFetch ["m1", "m2"] initSt)).fetched ∧
    "m1" ∉ (stOf (run_cycleMsgs badFetch ["m1", "m2"] initSt)).marked ∧
    (stOf (run_cycleMsgs badFetch ["m1", "m2"] initSt)).emitted = [] := by
  refine ⟨rfl, ?_, ?_, rfl⟩ <;> decide

/-- C5 amended: an extraction failure on one message is isolated — the
message is still marked seen and the loop proceeds to the remaining
messages from the expected state — but a decode error raised by the body
decoder aborts the cycle at that message: the loop ends with the decode
error, the failing message unmarked, and the remaining messages
unprocessed. -/
theorem C5_amended_extraction_isolated :
    ∀ (f : String → Except Bool MessagePayload) (st : CycleSt) (m : String) (ms : List String)
      (p : MessagePayload) (b : Str), m ∉ st.seen → f m = .ok p →
      (get_email_body p = .ok b → extract_transaction_info b = none →
        run_cycleMsgs f (m :: ms) st =
          run_cycleMsgs f ms { st with fetched := st.fetched ++ [m], seen := st.seen ++ [m], marked := st.marked ++ [m] }) ∧
      ∀ e, get_email_body p = .error e →
        run_cycleMsgs f (m :: ms) st =
          .error (.decode e, { st with fetched := st.fetched ++ [m] }) := by
  intro f st m ms p b hm hf
  constructor
  · intro hb hx
    have hs : processMsg f st m = .ok { st with fetched := st.fetched ++ [m], seen := st.seen ++ [m], marked := st.marked ++ [m] } := by
      simp [processMsg, hm, hf, hb, hx]
    simp only [run_cycleMsgs, hs]
  · intro e hb
    have hs : processMsg f st m = .error (.decode e, { st with fetched := st.fetched ++ [m] }) := by
      simp [processMsg, hm, hf, hb]
    simp only [run_cycleMsgs, hs]

/-- Closed instance of C5 amended: a message whose body holds no
transaction is marked seen and the next message still gets processed, while
a malformed first message ends the cycle with the decode error. -/
theorem C5_amended_extraction_isolated_witness :
    run_cycleMsgs (fun _ => .ok ⟨none, none, none⟩) ["a", "b"] initSt =
      run_cycleMsgs (fun _ => .ok ⟨none, none, none⟩) ["b"]
        { initSt with fetched := initSt.fetched ++ ["a"], seen := initSt.seen ++ ["a"], marked := initSt.marked ++ ["a"] } ∧
    run_cycleMsgs badFetch ["a", "b"] initSt =
      .error (.decode B64Error.invalidLength, { initSt with fetched := initSt.fetched ++ ["a"] }) :=
  ⟨(C5_amended_extraction_isolated (fun _ => .ok ⟨none, none, none⟩) initSt "a" ["b"]
      ⟨none, none, none⟩ [] (by decide) rfl).1 rfl rfl,
    (C5_amended_extraction_isolated badFetch initSt "a" ["b"] badPayload []
      (by decide) rfl).2 B64Error.invalidLength rfl⟩

/-- The empty payload used by behaviour stubs in loop counterexamples. -/
def nullPayload : MessagePayload := ⟨none, none, none⟩

/-- A tick whose provider query raises a transient (network) error. -/
def tickErrT : Tick := ⟨.error true, fun _ => .ok nullPayload, false⟩

/-- A tick whose provider query returns no messages. -/
def tickOkEmpty : Tick := ⟨.ok [], fun _ => .ok nullPayload, false⟩

/-- C9 as stated is false: a transient provider error is not retried on the
next scheduled tick.  With a transient query error on the first tick and a
healthy second tick, the loop terminates at once in the crashed outcome;
the second tick is never reached. -/
theorem C9_counterexample :
    runLoop [tickErrT, tickOkEmpty] initSt =
      (some (LoopOutcome.crashed (CycleErr.provider true)), initSt) := rfl

/-- C9 amended: a provider error during the query aborts the current cycle
and terminates the loop with that error surfaced in the outcome, whether it
is classified transient or fatal; only a completed cycle continues the loop
(or stops it cleanly on a user interrupt). -/
theorem C9_amended_any_provider_error_terminates :
    ∀ (ticks : List Tick) (t : Tick) (st : CycleSt) (tr : Bool),
      (t.queryRes = .error tr →
        runLoop (t :: ticks) st = (some (LoopOutcome.crashed (CycleErr.provider tr)), st)) ∧
      ∀ st', run_cycle t st = .ok st' →
        runLoop (t :: ticks) st =
          if t.interrupted then (some LoopOutcome.cleanStop, st') else runLoop ticks st' := by
  intro ticks t st tr
  constructor
  · intro h
    simp only [runLoop, run_cycle, h]
  · intro st' h
    simp only [runLoop, h]

/-- Closed instance of C9 amended at a transient error tick and at a
healthy tick. -/
theorem C9_amended_any_provider_error_terminates_witness :
    runLoop [tickErrT] initSt = (some (LoopOutcome.crashed (CycleErr.provider true)), initSt) ∧
    runLoop [tickOkEmpty, tickErrT] initSt =
      (if tickOkEmpty.interrupted then (some LoopOutcome.cleanStop, { initSt with newFound := false })
        else runLoop [tickErrT] { initSt with newFound := false }) :=
  ⟨(C9_amended_any_provider_error_terminates [] tickErrT initSt true).1 rfl,
    (C9_amended_any_provider_error_terminates [tickErrT] tickOkEmpty initSt true).2
      { initSt with newFound := false } rfl⟩

/-! ### Decoder safety (C4) and part selection (C1) -/

/-- C4 as stated is false: the body decoder can raise.  A single-part
payload whose data is the one-character string A is malformed web-safe
base64, and get_email_body propagates the base64 error to its caller
instead of returning a string. -/
theorem C4_counterexample :
    get_email_body ⟨none, some plainMime, some "A".data⟩ =
      .error B64Error.invalidLength := rfl

/-- A body-data string whose base64 decode succeeds. -/
def dataOk (d : Str) : Prop := ∃ bs, urlsafeB64decode d = .ok bs

/-- Every body-data field of the payload is well-formed base64. -/
def payloadOk (p : MessagePayload) : Prop :=
  (∀ parts, p.parts = some parts → ∀ q ∈ parts, ∀ d, q.bodyData = some d → dataOk d) ∧
  ∀ d, p.bodyData = some d → dataOk d

/-- Binding a successful Except value applies the continuation. -/
lemma bindOk {ε α β : Type} (a : α) (f : α → Except ε β) :
    (Except.ok a >>= f : Except ε β) = f a := rfl

/-- Mapping over a successful Except value applies the function. -/
lemma mapOk {ε α β : Type} (a : α) (f : α → β) :
    (Except.map f (Except.ok a) : Except ε β) = .ok (f a) := rfl

/-- The parts loop returns a string whenever every part's data is
well-formed base64. -/
lemma partsLoop_ok : ∀ (parts : List Part),
    (∀ q ∈ parts, ∀ d, q.bodyData = some d → dataOk d) →
    ∃ s, partsLoop parts = .ok s := by
  intro parts
  induction parts with
  | nil => exact fun _ => ⟨[], rfl⟩
  | cons q rest ih =>
    intro h
    cases hd : q.bodyData with
    | none =>
      refine ⟨(ih fun x hx => h x (List.mem_cons_of_mem _ hx)).choose, ?_⟩
      simp only [partsLoop, hd]
      exact (ih fun x hx => h x (List.mem_cons_of_mem _ hx)).choose_spec
    | some d =>
      by_cases hde : d = []
      · have := ih fun x hx => h x (List.mem_cons_of_mem _ hx)
        simpa only [partsLoop, hd, if_pos hde] using this
      · obtain ⟨bs, hbs⟩ := h q (List.mem_cons_self _ _) d hd
        have hdec : decodeData d = .ok (utf8Ignore bs) := by
          simp [decodeData, hbs, mapOk]
        simp only [partsLoop, hd, if_neg hde, hdec, bindOk]
        split
        · exact ⟨_, rfl⟩
        · split
          · exact ⟨_, rfl⟩
          · exact ih fun x hx => h x (List.mem_cons_of_mem _ hx)

/-- C4 amended: undecodable byte sequences never raise (they are ignored by
the bytes decoder, which is total), and on every payload whose body-data
fields are well-formed web-safe base64 the decoder returns a string; but on
malformed base64 the underlying decode raises and get_email_body propagates
the error, as the counterexample shows. -/
theorem C4_amended_returns_string_on_wellformed_base64 :
    ∀ (p : MessagePayload), payloadOk p → ∃ s, get_email_body p = .ok s := by
  intro p hp
  cases hparts : p.parts with
  | some parts =>
    have := partsLoop_ok parts (hp.1 parts hparts)
    simpa only [get_email_body, hparts] using this
  | none =>
    cases hbd : p.bodyData with
    | none =>
      refine ⟨[], ?_⟩
      simp only [get_email_body, hparts, hbd]
    | some d =>
      by_cases hde : d = []
      · refine ⟨[], ?_⟩
        simp only [get_email_body, hparts, hbd, if_pos hde]
      · obtain ⟨bs, hbs⟩ := hp.2 d hbd
        have hdec : decodeData d = .ok (utf8Ignore bs) := by
          simp [decodeData, hbs, mapOk]
        simp only [get_email_body, hparts, hbd, if_neg hde, hdec, bindOk]
        split
        · exact ⟨_, rfl⟩
        · split
          · exact ⟨_, rfl⟩
          · exact ⟨[], rfl⟩

/-- Closed instance of C4 amended at a concrete well-formed payload. -/
theorem C4_amended_returns_string_on_wellformed_base64_witness :
    payloadOk ⟨none, some plainMime, some "aGVsbG8=".data⟩ ∧
    ∃ s, get_email_body ⟨none, some plainMime, some "aGVsbG8=".data⟩ = .ok s := by
  have hp : payloadOk ⟨none, some plainMime, some "aGVsbG8=".data⟩ := by
    constructor
    · intro parts h
      exact absurd h (by simp)
    · intro d hd
      rw [Option.some.injEq] at hd
      subst hd
      exact ⟨[104, 101, 108, 108, 111], rfl⟩
  exact ⟨hp, C4_amended_returns_string_on_wellformed_base64 _ hp⟩

/-- The first multi-part fixture: an HTML part listed before a plain part,
both with body data. -/
def htmlPart : Part := ⟨some htmlMime, some "PGI-SFRNTDwvYj4=".data⟩

/-- The plain-text counterpart of the fixture, carrying different text. -/
def plainPart : Part := ⟨some plainMime, some "UExBSU4=".data⟩

/-- C1 as stated is false: the decoder does not prefer the plain part
regardless of order.  With the HTML part first, its stripped text is
returned even though a plain part with different content follows; only
with the plain part first is the plain text returned. -/
theorem C1_counterexample :
    get_email_body ⟨some [htmlPart, plainPart], none, none⟩ = .ok "HTML".data ∧
    get_email_body ⟨some [plainPart, htmlPart], none, none⟩ = .ok "PLAIN".data ∧
    "HTML".data ≠ "PLAIN".data :=
  ⟨rfl, rfl, by decide⟩

/-- A part the loop passes over: it has no body data (absent or the empty,
falsy string), or its data decodes and its MIME type is neither text/plain
nor text/html. -/
def partSkipped (q : Part) : Prop :=
  q.bodyData = none ∨ q.bodyData = some [] ∨
    ∃ d c, q.bodyData = some d ∧ decodeData d = .ok c ∧
      q.mimeType ≠ some plainMime ∧ q.mimeType ≠ some htmlMime

/-- Passed-over parts do not affect the parts loop. -/
lemma partsLoop_skip : ∀ (pre : List Part), (∀ x ∈ pre, partSkipped x) →
    ∀ rest, partsLoop (pre ++ rest) = partsLoop rest := by
  intro pre
  induction pre with
  | nil => exact fun _ _ => rfl
  | cons x pre ih =>
    intro h rest
    have hx := h x (List.mem_cons_self _ _)
    have htail := ih (fun y hy => h y (List.mem_cons_of_mem _ hy)) rest
    rcases hx with hnone | hempty | ⟨d, c, hd, hdc, hne1, hne2⟩
    · simp only [List.cons_append, partsLoop, hnone]
      exact htail
    · simp only [List.cons_append, partsLoop, hempty, if_pos rfl]
      exact htail
    · by_cases hde : d = []
      · simp only [List.cons_append, partsLoop, hd, if_pos hde]
        exact htail
      · simp only [List.cons_append, partsLoop, hd, if_neg hde, hdc, bindOk,
          if_neg hne1, if_neg hne2]
        exact htail

/-- C1 amended: the decoder returns the decoded text of the first part, in
the order the parts appear, that has body data and a recognised MIME type —
plain text stripped for a text/plain part, tag-stripped text for a
text/html part.  When a plain part comes first this is the plain text, but
an HTML part listed earlier takes precedence over a later plain part, as
the counterexample shows. -/
theorem C1_amended_first_usable_part_wins :
    ∀ (pre rest : List Part) (q : Part) (mt bd : Option Str) (d c : Str),
      (∀ x ∈ pre, partSkipped x) → q.bodyData = some d → d ≠ [] → decodeData d = .ok c →
      (q.mimeType = some plainMime →
        get_email_body ⟨some (pre ++ q :: rest), mt, bd⟩ = .ok (pyStrip c)) ∧
      (q.mimeType = some htmlMime →
        get_email_body ⟨some (pre ++ q :: rest), mt, bd⟩ = .ok (pyStrip (getText c))) := by
  intro pre rest q mt bd d c hpre hd hdne hdc
  have hskip := partsLoop_skip pre hpre (q :: rest)
  constructor
  · intro hmime
    simp only [get_email_body, hskip, partsLoop, hd, if_neg hdne, hdc, bindOk, if_pos hmime]
    rfl
  · intro hmime
    have hne : q.mimeType ≠ some plainMime := by
      rw [hmime]
      simp [plainMime, htmlMime]
    simp only [get_email_body, hskip, partsLoop, hd, if_neg hdne, hdc, bindOk, if_neg hne,
      if_pos hmime]
    rfl

/-- Closed instance of C1 amended: after a dataless part, a plain part's
stripped content is returned. -/
theorem C1_amended_first_usable_part_wins_witness :
    get_email_body ⟨some ([⟨none, none⟩] ++ plainPart :: []), none, none⟩ =
      .ok (pyStrip "PLAIN".data) :=
  (C1_amended_first_usable_part_wins [⟨none, none⟩] [] plainPart none none
    "UExBSU4=".data "PLAIN".data
    (fun x hx => by
      rw [List.mem_singleton] at hx
      subst hx
      exact Or.inl rfl)
    rfl (by decide) rfl).1 rfl

/-! ### Shape of successful extractions (C6, C7, C10) -/

/-- The digit run really is made of digits. -/
lemma digitRun_all : ∀ s : Str, (digitRun s).1.all Char.isDigit := by
  intro s
  induction s with
  | nil => rfl
  | cons c cs ih =>
    by_cases h : c.isDigit
    · simp [digitRun, h, ih]
    · simp [digitRun, h]

/-- The shape the amount group always has: a nonempty run of digits, a dot,
and exactly two digits — in particular no grouping comma. -/
def amountShape (g : Str) : Prop :=
  ∃ d a b, g = d ++ '.' :: a :: b :: [] ∧ d ≠ [] ∧ d.all Char.isDigit ∧
    (a.isDigit && b.isDigit) = true

/-- Inversion of one amount branch. -/
lemma tryAmountAt_some {d rest : Str} {g r3 : Str}
    (h : tryAmountAt d rest = some (g, r3)) :
    ∃ a b rest2, rest = '.' :: a :: b :: rest2 ∧ (a.isDigit && b.isDigit) = true ∧
      g = d ++ '.' :: a :: b :: [] ∧ dropLit creditedLit rest2 = some r3 := by
  unfold tryAmountAt at h
  split at h
  next a b rest2 =>
    split at h
    next hab =>
      split at h
      next rest3 hlit =>
        rw [Option.some.injEq, Prod.mk.injEq] at h
        exact ⟨a, b, rest2, rfl, hab, h.1.symm, h.2 ▸ hlit⟩
      next => exact absurd h (by simp)
    next => exact absurd h (by simp)
  next => exact absurd h (by simp)

/-- Every successful backtracking branch produces a well-shaped amount
group, given a nonempty all-digit run. -/
lemma bkAmount_some : ∀ (k : Nat) (run rest g r3 : Str),
    run.all Char.isDigit → run ≠ [] → bkAmount run rest k = some (g, r3) →
    amountShape g := by
  intro k
  induction k with
  | zero =>
    intro run rest g r3 _ _ h
    exact absurd h (by simp [bkAmount])
  | succ k ih =>
    intro run rest g r3 hall hne h
    simp only [bkAmount] at h
    split at h
    next pr hta =>
      rw [Option.some.injEq] at h
      subst h
      obtain ⟨a, b, rest2, _, hab, hg, _⟩ := tryAmountAt_some hta
      refine ⟨run.take (k + 1), a, b, hg, ?_, ?_, hab⟩
      · cases run with
        | nil => exact absurd rfl hne
        | cons x xs => simp [List.take]
      · rw [List.all_eq_true] at hall ⊢
        exact fun x hx => hall x (List.take_subset _ _ hx)
    next => exact ih run rest g r3 hall hne h

/-- A successful amount match yields a well-shaped group. -/
lemma matchAfterRs_some {s : Str} {g r3 : Str}
    (h : matchAfterRs s = some (g, r3)) : amountShape g := by
  simp only [matchAfterRs] at h
  have hall := digitRun_all s
  cases hrun : (digitRun s).1 with
  | nil =>
    rw [hrun] at h
    exact absurd h (by simp [bkAmount])
  | cons a as =>
    rw [hrun] at h hall
    exact bkAmount_some _ _ _ _ _ hall (by simp) h

/-- A successful reference scan yields a nonempty all-digit group. -/
lemma findRef_some : ∀ (s g2 : Str), findRef s = some g2 →
    g2 ≠ [] ∧ g2.all Char.isDigit := by
  intro s
  induction s with
  | nil =>
    intro g2 h
    exact absurd h (by simp [findRef])
  | cons c cs ih =>
    intro g2 h
    simp only [findRef] at h
    split at h
    next rest hlit =>
      split at h
      next => exact ih g2 h
      next he =>
        rw [Option.some.injEq] at h
        subst h
        refine ⟨fun h0 => he ?_, digitRun_all rest⟩
        rw [h0]
        rfl
    next => exact ih g2 h

/-- Inversion of the full search: the groups have the shapes forced by the
pattern. -/
lemma searchFrom_some : ∀ (s g1 g2 : Str), searchFrom s = some (g1, g2) →
    amountShape g1 ∧ g2 ≠ [] ∧ g2.all Char.isDigit := by
  intro s
  induction s with
  | nil =>
    intro g1 g2 h
    exact absurd h (by simp [searchFrom])
  | cons c cs ih =>
    intro g1 g2 h
    simp only [searchFrom] at h
    split at h
    next rest _ =>
      split at h
      next g hm =>
        split at h
        next gr hf =>
          rw [Option.some.injEq, Prod.mk.injEq] at h
          obtain ⟨h1, h2⟩ := h
          subst h1
          subst h2
          obtain ⟨hg2ne, hg2d⟩ := findRef_some _ _ hf
          exact ⟨matchAfterRs_some (by rw [hm]), hg2ne, hg2d⟩
        next => exact ih g1 g2 h
      next => exact ih g1 g2 h
    next => exact ih g1 g2 h

/-- Inversion of the extractor: a returned record comes from a successful
search, with the amount from group one and the reference the group-two
string. -/
lemma extract_some {text : Str} {r : Txn}
    (h : extract_transaction_info text = some r) :
    ∃ g1 g2, searchFrom text = some (g1, g2) ∧ r = ⟨pyFloat g1, g2⟩ := by
  unfold extract_transaction_info at h
  split at h
  next g hg =>
    rw [Option.some.injEq] at h
    exact ⟨g.1, g.2, by rw [hg], h.symm⟩
  next => exact absurd h (by simp)

/-- The running success example of the spec. -/
def c6text : Str :=
  "Rs.1234.56 is successfully credited to your account ... the reference number is 123456789012".data

/-- C6: the example text yields the record with amount 1234.56 and the
reference kept as the digit string 123456789012; and in every successful
extraction the reference field is a nonempty string of digits — the matched
group-two text itself, never a numeric coercion of it. -/
theorem C6_example_and_reference_kept_as_string :
    extract_transaction_info c6text = some ⟨(1234.56 : ℚ), "123456789012".data⟩ ∧
    ∀ (text : Str) (r : Txn), extract_transaction_info text = some r →
      (∃ g1 g2, searchFrom text = some (g1, g2) ∧ r.utr = g2) ∧
      r.utr ≠ [] ∧ r.utr.all Char.isDigit := by
  constructor
  · rw [← pyFloat_1234_56]
    rfl
  · intro text r h
    obtain ⟨g1, g2, hs, hr⟩ := extract_some h
    obtain ⟨_, hne, hd⟩ := searchFrom_some text g1 g2 hs
    subst hr
    exact ⟨⟨g1, g2, hs, rfl⟩, hne, hd⟩

/-- Closed instance of C6 at the example text. -/
theorem C6_example_and_reference_kept_as_string_witness :
    extract_transaction_info c6text = some ⟨(1234.56 : ℚ), "123456789012".data⟩ ∧
    "123456789012".data ≠ [] ∧ ("123456789012".data).all Char.isDigit :=
  ⟨C6_example_and_reference_kept_as_string.1,
    (C6_example_and_reference_kept_as_string.2 c6text
      ⟨(1234.56 : ℚ), "123456789012".data⟩
      C6_example_and_reference_kept_as_string.1).2⟩

/-- C7: on every input the extractor returns either None (exactly when the
pattern search fails) or a fully populated record: the amount is the value
of the well-shaped group one and the reference is the nonempty all-digit
group two.  The function is total — no error reaches the caller. -/
theorem C7_total_fully_populated_or_none :
    ∀ text : Str, (searchFrom text = none ∧ extract_transaction_info text = none) ∨
      ∃ g1 g2, searchFrom text = some (g1, g2) ∧
        extract_transaction_info text = some ⟨pyFloat g1, g2⟩ ∧
        amountShape g1 ∧ g2 ≠ [] ∧ g2.all Char.isDigit := by
  intro text
  cases hs : searchFrom text with
  | none =>
    left
    exact ⟨rfl, by simp [extract_transaction_info, hs]⟩
  | some g =>
    right
    obtain ⟨g1, g2⟩ := g
    obtain ⟨h1, h2, h3⟩ := searchFrom_some text g1 g2 hs
    exact ⟨g1, g2, rfl, by simp [extract_transaction_info, hs], h1, h2, h3⟩

/-- The comma-formatted variant of the example. -/
def c10text : Str :=
  "Rs.1,234.56 is successfully credited to your account ... reference number is 987654321".data

/-- C10: a comma-grouped amount after the currency marker is rejected —
the example text extracts to None — because every amount group the search
can accept is an unbroken digit run, a dot, and exactly two digits. -/
theorem C10_comma_amounts_rejected :
    extract_transaction_info c10text = none ∧
    ∀ (text g1 g2 : Str), searchFrom text = some (g1, g2) → amountShape g1 :=
  ⟨by decide, fun text g1 g2 h => (searchFrom_some text g1 g2 h).1⟩

/-- Closed instance of C10: the comma example is rejected, and the shape
fact instantiated at the successful plain example. -/
theorem C10_comma_amounts_rejected_witness :
    extract_transaction_info c10text = none ∧ amountShape "1234.56".data :=
  ⟨C10_comma_amounts_rejected.1,
    C10_comma_amounts_rejected.2 c6text "1234.56".data "123456789012".data rfl⟩

/-! ### Cross-line matching (C8)

The match is computed symbolically on a text of the form

  currency marker, amount digits, dot, two digits, credited literal,
  intervening text, reference literal, reference digits

for an arbitrary intervening text that contains no occurrence of the
reference phrase of its own, which makes exact the claim's singular
reading of THE reference-number phrase. -/

/-- Dropping a literal off the text that starts with it leaves the rest. -/
lemma dropLit_append : ∀ (p s : Str), dropLit p (p ++ s) = some s := by
  intro p s
  induction p with
  | nil => rfl
  | cons c cs ih => simp [dropLit, ih]

/-- An all-digit string is one maximal digit run. -/
lemma digitRun_eq_self : ∀ s : Str, s.all Char.isDigit → digitRun s = (s, []) := by
  intro s
  induction s with
  | nil => intro _; rfl
  | cons c cs ih =>
    intro h
    rw [List.all_cons, Bool.and_eq_true] at h
    simp [digitRun, h.1, ih h.2]

/-- The maximal digit run of digits followed by a non-digit splits exactly
at the non-digit. -/
lemma digitRun_append : ∀ (A : Str) (c : Char) (s : Str), A.all Char.isDigit →
    c.isDigit = false → digitRun (A ++ c :: s) = (A, c :: s) := by
  intro A
  induction A with
  | nil =>
    intro c s _ hc
    simp [digitRun, hc]
  | cons a A' ih =>
    intro c s hA hc
    rw [List.all_cons, Bool.and_eq_true] at hA
    simp [digitRun, hA.1, ih c s hA.2 hc]

/-- The intervening text is free of the reference phrase: the reference
literal matches at none of its positions (including matches that would run
over into the real reference phrase). -/
@[reducible] def noDecoy (mid tail : Str) : Prop :=
  ∀ i, i < mid.length → dropLit refLit (List.drop i (mid ++ tail)) = none

/-- One reference-scan step that finds the literal with digits after it. -/
lemma findRef_step_found {c : Char} {cs rest : Str}
    (h : dropLit refLit (c :: cs) = some rest)
    (hne : (digitRun rest).1.isEmpty = false) :
    findRef (c :: cs) = some (digitRun rest).1 := by
  simp [findRef, h, hne]

/-- One reference-scan step over a position where the literal is absent. -/
lemma findRef_step_miss {c : Char} {cs : Str}
    (h : dropLit refLit (c :: cs) = none) :
    findRef (c :: cs) = findRef cs := by
  simp [findRef, h]

/-- The lazy reference scan over decoy-free intervening text lands exactly
on the reference phrase and captures all the reference digits. -/
lemma findRef_append : ∀ (mid R : Str), R ≠ [] → R.all Char.isDigit →
    noDecoy mid (refLit ++ R) → findRef (mid ++ (refLit ++ R)) = some R := by
  intro mid
  induction mid with
  | nil =>
    intro R hR hRd _
    rw [List.nil_append]
    have hdr : digitRun R = (R, []) := digitRun_eq_self R hRd
    have hne : (digitRun R).1.isEmpty = false := by
      rw [hdr]
      cases R with
      | nil => exact absurd rfl hR
      | cons r0 R' => rfl
    have h0 : dropLit refLit ('r' :: ("eference number is ".data ++ R)) = some R :=
      dropLit_append refLit R
    show findRef ('r' :: ("eference number is ".data ++ R)) = some R
    rw [findRef_step_found h0 hne, hdr]
  | cons m mid' ih =>
    intro R hR hRd hnd
    have h0 : dropLit refLit (m :: (mid' ++ (refLit ++ R))) = none := by
      have := hnd 0 (by simp)
      simpa using this
    rw [List.cons_append, findRef_step_miss h0]
    apply ih R hR hRd
    intro i hi
    have := hnd (i + 1) (by simpa using Nat.succ_lt_succ hi)
    simpa [List.drop_succ_cons] using this

/-- The amount part matches in one backtracking attempt on a text that
starts with the digits, the dot, the two decimals and the credited
literal. -/
lemma matchAfterRs_span : ∀ (A : Str) (f1 f2 : Char) (Y : Str), A ≠ [] →
    A.all Char.isDigit → f1.isDigit → f2.isDigit →
    matchAfterRs (A ++ '.' :: f1 :: f2 :: (creditedLit ++ Y)) =
      some (A ++ '.' :: f1 :: f2 :: [], Y) := by
  intro A f1 f2 Y hA hAd h1 h2
  simp only [matchAfterRs]
  rw [digitRun_append A '.' (f1 :: f2 :: (creditedLit ++ Y)) hAd (by decide)]
  cases A with
  | nil => exact absurd rfl hA
  | cons a0 A' =>
    simp only [List.length_cons, bkAmount]
    have htk : (a0 :: A').take (A'.length + 1) = a0 :: A' := by
      rw [← List.length_cons a0 A']
      exact List.take_length _
    have hdp : (a0 :: A').drop (A'.length + 1) = [] := by
      rw [← List.length_cons a0 A']
      exact List.drop_length _
    rw [htk, hdp, List.nil_append]
    have hta : tryAmountAt (a0 :: A') ('.' :: f1 :: f2 :: (creditedLit ++ Y)) =
        some ((a0 :: A') ++ '.' :: f1 :: f2 :: [], Y) := by
      simp only [tryAmountAt, h1, h2, Bool.and_self, if_true, dropLit_append]
    rw [hta]

/-- One search step that succeeds at the current start position. -/
lemma searchFrom_step_found {c : Char} {cs rest : Str} {g : Str × Str} {g2 : Str}
    (h1 : dropLit rsLit (c :: cs) = some rest) (h2 : matchAfterRs rest = some g)
    (h3 : findRef g.2 = some g2) : searchFrom (c :: cs) = some (g.1, g2) := by
  simp [searchFrom, h1, h2, h3]

/-- The full pattern matches at the head of the spanning text and captures
the amount group and the reference digits, for every decoy-free intervening
text. -/
lemma searchFrom_span : ∀ (A mid R : Str) (f1 f2 : Char), A ≠ [] →
    A.all Char.isDigit → f1.isDigit → f2.isDigit → R ≠ [] → R.all Char.isDigit →
    noDecoy mid (refLit ++ R) →
    searchFrom (rsLit ++ (A ++ '.' :: f1 :: f2 :: (creditedLit ++ (mid ++ (refLit ++ R))))) =
      some (A ++ '.' :: f1 :: f2 :: [], R) := by
  intro A mid R f1 f2 hA hAd h1 h2 hR hRd hnd
  show searchFrom
      ('R' :: 's' :: '.' :: (A ++ '.' :: f1 :: f2 :: (creditedLit ++ (mid ++ (refLit ++ R))))) =
    some (A ++ '.' :: f1 :: f2 :: [], R)
  exact searchFrom_step_found
    (dropLit_append rsLit (A ++ '.' :: f1 :: f2 :: (creditedLit ++ (mid ++ (refLit ++ R)))))
    (matchAfterRs_span A f1 f2 (mid ++ (refLit ++ R)) hA hAd h1 h2)
    (findRef_append mid R hR hRd hnd)

/-- C8: when the amount phrase and the (single) reference phrase are
separated by intervening text holding one or more newlines and no reference
phrase of its own, extraction still succeeds, and returns the same amount
and reference as with the phrases on one line, separated by one space. -/
theorem C8_cross_line_match :
    ∀ (A mid R : Str) (f1 f2 : Char), A ≠ [] → A.all Char.isDigit →
      f1.isDigit → f2.isDigit → R ≠ [] → R.all Char.isDigit →
      '\n' ∈ mid → noDecoy mid (refLit ++ R) →
      extract_transaction_info
          (rsLit ++ (A ++ '.' :: f1 :: f2 :: (creditedLit ++ (mid ++ (refLit ++ R))))) =
        some ⟨pyFloat (A ++ '.' :: f1 :: f2 :: []), R⟩ ∧
      extract_transaction_info
          (rsLit ++ (A ++ '.' :: f1 :: f2 :: (creditedLit ++ (mid ++ (refLit ++ R))))) =
        extract_transaction_info
          (rsLit ++ (A ++ '.' :: f1 :: f2 :: (creditedLit ++ (' ' :: (refLit ++ R))))) := by
  intro A mid R f1 f2 hA hAd h1 h2 hR hRd _ hnd
  have hsp : noDecoy [' '] (refLit ++ R) := by
    intro i hi
    have h0 : i = 0 := Nat.lt_one_iff.mp (by simpa using hi)
    subst h0
    rfl
  have hmid := searchFrom_span A mid R f1 f2 hA hAd h1 h2 hR hRd hnd
  have hone := searchFrom_span A [' '] R f1 f2 hA hAd h1 h2 hR hRd hsp
  constructor
  · simp [extract_transaction_info, hmid]
  · simp only [extract_transaction_info, hmid]
    rw [show (([' '] : Str) ++ (refLit ++ R)) = ' ' :: (refLit ++ R) from rfl] at hone
    simp only [hone]

/-- Closed instance of C8: three lines between the phrases. -/
theorem C8_cross_line_match_witness :
    ('\n' ∈ "\nfoo\n".data ∧ noDecoy "\nfoo\n".data (refLit ++ "99".data)) ∧
    extract_transaction_info
        (rsLit ++ ("1234".data ++ '.' :: '5' :: '6' ::
          (creditedLit ++ ("\nfoo\n".data ++ (refLit ++ "99".data))))) =
      some ⟨pyFloat ("1234".data ++ '.' :: '5' :: '6' :: []), "99".data⟩ :=
  ⟨⟨by decide, by decide⟩,
    (C8_cross_line_match "1234".data "\nfoo\n".data "99".data '5' '6' (by decide) (by decide)
      (by decide) (by decide) (by decide) (by decide) (by decide) (by decide)).1⟩

end Mail
